import Mathlib

/-!
Shallow embedding of the RUL labeling and normalization pipeline of
`source/notebooks/sagemaker_predictive_maintenance.ipynb`.

The notebook processes, per dataset variant FD001..FD004:
 - cell-4 (train): read the 26-column table, min-max normalize the 24
   continuous channels (`columns[2:]`, i.e. all columns except `id` and
   `cycle`) with `eps = 0.000001`, then compute
   `RUL = max - cycle` where `max` comes from `df.groupby('id')['cycle'].max()`
   left-merged back on `id`;
 - cell-6 (test): read the truncated series, read the true-RUL reference file,
   shift its index by one (`df_rul.index += 1`) and left-merge it on the run id
   against the positional index; compute `RUL = max + RUL_end - cycle`; then
   min-max normalize `columns[2:]`.

Numeric channel values are modelled as rationals; `id`, `cycle` and RUL values
as integers.  A pandas left merge that finds no matching key yields NaN, which
is modelled by `Option`: the RUL column of a labeled record is `none` exactly
where the notebook would produce NaN.
-/

/-- A raw row of a train/test file after dropping the two artifact columns and
naming: `id`, `cycle`, and the 24 continuous channels `columns[2:]`
(`setting1..3`, `s1..s21`); `channels j` is column `columns[2:][j]`. -/
structure CycleRecord where
  id : Int
  cycle : Int
  channels : Fin 24 → ℚ

instance : Inhabited CycleRecord := ⟨⟨0, 0, fun _ => 0⟩⟩

/-- A row after the RUL computation: the original fields plus the `RUL`
column.  `rul = none` models a NaN produced by a missed left merge. -/
structure LabeledRecord where
  id : Int
  cycle : Int
  channels : Fin 24 → ℚ
  rul : Option Int

instance : Inhabited LabeledRecord := ⟨⟨0, 0, fun _ => 0, none⟩⟩

/-- `eps = 0.000001`, the notebook's stabilizer "for floating point issues
during normalization". -/
def eps : ℚ := 1 / 1000000

/-- Minimum of a nonempty list, seeded at the head (`default` on `[]`,
which the pipeline never hits: pandas `.min()` over a nonempty column). -/
def listMin {α : Type} [LinearOrder α] [Inhabited α] : List α → α
  | [] => default
  | x :: xs => xs.foldl min x

/-- Maximum of a nonempty list, seeded at the head (`default` on `[]`). -/
def listMax {α : Type} [LinearOrder α] [Inhabited α] : List α → α
  | [] => default
  | x :: xs => xs.foldl max x

/-- Column minimum `df[columns[2:]].min()` for channel `j`, over all rows of
the collection. -/
def chanMin (rows : List CycleRecord) (j : Fin 24) : ℚ :=
  listMin (rows.map fun r => r.channels j)

/-- Column maximum `df[columns[2:]].max()` for channel `j`, over all rows of
the collection. -/
def chanMax (rows : List CycleRecord) (j : Fin 24) : ℚ :=
  listMax (rows.map fun r => r.channels j)

/-- The vectorized expression
`(df[columns[2:]] - df[columns[2:]].min() + eps) / (df[columns[2:]].max() - df[columns[2:]].min() + eps)`
at one cell. -/
def normValue (mn mx v : ℚ) : ℚ :=
  (v - mn + eps) / (mx - mn + eps)

/-- cell-4 normalization: replace every channel cell by its min-max normalized
value; `id` and `cycle` are not assigned to. -/
def normalizeTrain (rows : List CycleRecord) : List CycleRecord :=
  rows.map fun r =>
    { r with channels := fun j => normValue (chanMin rows j) (chanMax rows j) (r.channels j) }

/-- Column minimum for channel `j` over labeled rows (cell-6 normalizes after
the RUL computation; `df[columns[2:]]` still selects only the 24 channels). -/
def chanMinL (rows : List LabeledRecord) (j : Fin 24) : ℚ :=
  listMin (rows.map fun r => r.channels j)

/-- Column maximum for channel `j` over labeled rows. -/
def chanMaxL (rows : List LabeledRecord) (j : Fin 24) : ℚ :=
  listMax (rows.map fun r => r.channels j)

/-- cell-6 normalization of `columns[2:]` on the already-labeled table:
channel cells are replaced, `id`, `cycle` and `RUL` are not assigned to. -/
def normalizeTest (rows : List LabeledRecord) : List LabeledRecord :=
  rows.map fun r =>
    { r with channels := fun j => normValue (chanMinL rows j) (chanMaxL rows j) (r.channels j) }

/-- The distinct run ids of the collection, as grouped by
`df.groupby('id')`. -/
def uniqueIds (rows : List CycleRecord) : List Int :=
  (rows.map fun r => r.id).dedup

/-- The maximum `cycle` over the rows of run `id`:
`df.groupby('id')['cycle'].max()` evaluated at one group. -/
def maxCycle (rows : List CycleRecord) (id : Int) : Int :=
  listMax ((rows.filter fun r => r.id == id).map fun r => r.cycle)

/-- The two-column frame `rul` built by
`pd.DataFrame(df.groupby('id')['cycle'].max()).reset_index()`:
one `(id, max)` pair per distinct run id. -/
def rulTable (rows : List CycleRecord) : List (Int × Int) :=
  (uniqueIds rows).map fun id => (id, maxCycle rows id)

/-- The left merge `df.merge(rul, on=['id'], how='left')` at one row: the
`max` value joined to a given run id, NaN (`none`) when the id has no entry. -/
def lookupMax (tbl : List (Int × Int)) (id : Int) : Option Int :=
  (tbl.find? fun p => p.1 == id).map fun p => p.2

/-- cell-4 label of one row: `RUL = max - cycle`, with `max` obtained through
the groupby/merge above. -/
def trainLabelRow (rows : List CycleRecord) (r : CycleRecord) : LabeledRecord :=
  { id := r.id, cycle := r.cycle, channels := r.channels,
    rul := (lookupMax (rulTable rows) r.id).map fun m => m - r.cycle }

/-- cell-4 RUL computation: label every row of the collection. -/
def labelTrain (rows : List CycleRecord) : List LabeledRecord :=
  rows.map (trainLabelRow rows)

/-- The positional join of the true-RUL reference file: after
`df_rul.index += 1` the file's rows are indexed 1..n, and
`df.merge(df_rul, left_on=df.columns[0], right_index=True, how='left')`
matches run id `k` to the `k`-th entry (1-indexed), NaN (`none`) when there is
no such entry. -/
def rulLookup (ruls : List Int) (id : Int) : Option Int :=
  if 1 ≤ id then ruls.get? (id - 1).toNat else none

/-- cell-6 label of one row: `RUL = max + RUL_end - cycle`; a NaN in either
merged column (`max` or `RUL_end`) makes the sum NaN. -/
def testLabelRow (ruls : List Int) (rows : List CycleRecord) (r : CycleRecord) :
    LabeledRecord :=
  { id := r.id, cycle := r.cycle, channels := r.channels,
    rul :=
      match lookupMax (rulTable rows) r.id, rulLookup ruls r.id with
      | some m, some t => some (m + t - r.cycle)
      | _, _ => none }

/-- cell-6 RUL computation: label every row of the truncated series. -/
def labelTest (ruls : List Int) (rows : List CycleRecord) : List LabeledRecord :=
  rows.map (testLabelRow ruls rows)

/-- cell-4 pipeline for one variant: normalize, then compute RUL. -/
def trainProcess (rows : List CycleRecord) : List LabeledRecord :=
  labelTrain (normalizeTrain rows)

/-- cell-6 pipeline for one variant: compute RUL, then normalize. -/
def testProcess (ruls : List Int) (rows : List CycleRecord) : List LabeledRecord :=
  normalizeTest (labelTest ruls rows)

/-- The `for i in range(1,5)` loop of cell-4/cell-6: each iteration reads one
variant (`Except.error` models an exception while reading or labeling it) and
appends the processed frame.  There is no try/except: an exception propagates
out of the loop and the cell produces no list of frames. -/
def variantLoop (process : List CycleRecord → List LabeledRecord) :
    List (Except String (List CycleRecord)) → Except String (List (List LabeledRecord))
  | [] => .ok []
  | .error e :: _ => .error e
  | .ok rows :: rest => (variantLoop process rest).map fun outs => process rows :: outs

/-! ### Helper lemmas about list access, folds and the groupby/merge tables -/

lemma getD_eq_get {α : Type} [Inhabited α] (l : List α) (i : Nat) (h : i < l.length) :
    l.getD i default = l[i] := by
  simp [List.getD_eq_getElem?_getD, List.getElem?_eq_getElem h]

lemma getD_map {α β : Type} [Inhabited α] [Inhabited β] (f : α → β) (l : List α) (i : Nat)
    (h : i < l.length) : (l.map f).getD i default = f (l.getD i default) := by
  have h2 : i < (l.map f).length := by simpa using h
  rw [getD_eq_get _ _ h2, getD_eq_get _ _ h, List.getElem_map]

lemma getD_mem {α : Type} [Inhabited α] {l : List α} {i : Nat} (h : i < l.length) :
    l.getD i default ∈ l := by
  rw [getD_eq_get _ _ h]; exact List.getElem_mem h

lemma le_foldl_max {α : Type} [LinearOrder α] (a : α) (l : List α) : a ≤ l.foldl max a := by
  induction l generalizing a with
  | nil => exact le_refl a
  | cons x xs ih => exact le_trans (le_max_left a x) (ih (max a x))

lemma foldl_max_le_of_mem {α : Type} [LinearOrder α] {x : α} {l : List α} (a : α)
    (hx : x ∈ l) : x ≤ l.foldl max a := by
  induction l generalizing a with
  | nil => cases hx
  | cons y ys ih =>
    rcases List.mem_cons.mp hx with h | h
    · subst h; exact le_trans (le_max_right a x) (le_foldl_max _ _)
    · exact ih _ h

lemma foldl_max_mem {α : Type} [LinearOrder α] (a : α) (l : List α) :
    l.foldl max a ∈ a :: l := by
  induction l generalizing a with
  | nil => simp
  | cons x xs ih =>
    rcases List.mem_cons.mp (ih (max a x)) with h1 | h1
    · rcases max_choice a x with hm | hm
      · exact List.mem_cons.mpr (Or.inl (by rw [List.foldl_cons, h1, hm]))
      · exact List.mem_cons.mpr (Or.inr (List.mem_cons.mpr
          (Or.inl (by rw [List.foldl_cons, h1, hm]))))
    · exact List.mem_cons.mpr (Or.inr (List.mem_cons.mpr (Or.inr (by simpa using h1))))

lemma foldl_min_le {α : Type} [LinearOrder α] (a : α) (l : List α) : l.foldl min a ≤ a := by
  induction l generalizing a with
  | nil => exact le_refl a
  | cons x xs ih => exact le_trans (ih (min a x)) (min_le_left a x)

lemma foldl_min_le_of_mem {α : Type} [LinearOrder α] {x : α} {l : List α} (a : α)
    (hx : x ∈ l) : l.foldl min a ≤ x := by
  induction l generalizing a with
  | nil => cases hx
  | cons y ys ih =>
    rcases List.mem_cons.mp hx with h | h
    · subst h
      rw [List.foldl_cons]
      exact le_trans (foldl_min_le _ _) (min_le_right a x)
    · exact ih _ h

lemma le_listMax {α : Type} [LinearOrder α] [Inhabited α] {x : α} {l : List α} (hx : x ∈ l) :
    x ≤ listMax l := by
  cases l with
  | nil => cases hx
  | cons y ys =>
    rcases List.mem_cons.mp hx with h | h
    · subst h; exact le_foldl_max _ _
    · exact foldl_max_le_of_mem _ h

lemma listMax_mem {α : Type} [LinearOrder α] [Inhabited α] {l : List α} (h : l ≠ []) :
    listMax l ∈ l := by
  cases l with
  | nil => exact absurd rfl h
  | cons y ys => simpa [listMax] using foldl_max_mem y ys

lemma listMax_perm {α : Type} [LinearOrder α] [Inhabited α] {l1 l2 : List α}
    (hp : l1.Perm l2) : listMax l1 = listMax l2 := by
  by_cases h1 : l1 = []
  · subst h1
    rw [hp.symm.eq_nil]
  · have h2 : l2 ≠ [] := by
      intro h
      subst h
      exact h1 hp.eq_nil
    exact le_antisymm (le_listMax (hp.mem_iff.mp (listMax_mem h1)))
      (le_listMax (hp.mem_iff.mpr (listMax_mem h2)))

lemma listMin_le {α : Type} [LinearOrder α] [Inhabited α] {x : α} {l : List α} (hx : x ∈ l) :
    listMin l ≤ x := by
  cases l with
  | nil => cases hx
  | cons y ys =>
    rcases List.mem_cons.mp hx with h | h
    · subst h; exact foldl_min_le _ _
    · exact foldl_min_le_of_mem _ h

lemma chanMin_le_channels {rows : List CycleRecord} {r : CycleRecord} (hr : r ∈ rows)
    (j : Fin 24) : chanMin rows j ≤ r.channels j :=
  listMin_le (List.mem_map.mpr ⟨r, hr, rfl⟩)

lemma channels_le_chanMax {rows : List CycleRecord} {r : CycleRecord} (hr : r ∈ rows)
    (j : Fin 24) : r.channels j ≤ chanMax rows j :=
  le_listMax (List.mem_map.mpr ⟨r, hr, rfl⟩)

lemma mem_uniqueIds {rows : List CycleRecord} {id : Int} :
    id ∈ uniqueIds rows ↔ id ∈ rows.map fun r => r.id := by
  simp [uniqueIds, List.mem_dedup]

lemma find?_map_pair (ids : List Int) (f : Int → Int) (id : Int) :
    ((ids.map fun j => (j, f j)).find? fun p => p.1 == id)
      = if id ∈ ids then some (id, f id) else none := by
  induction ids with
  | nil => simp
  | cons k ks ih =>
    by_cases hk : k = id
    · subst hk; simp [List.find?_cons]
    · have hk2 : ¬id = k := fun h => hk h.symm
      simp [List.find?_cons, hk, ih, List.mem_cons, hk2]

lemma lookupMax_rulTable (rows : List CycleRecord) (id : Int) :
    lookupMax (rulTable rows) id
      = if id ∈ rows.map (fun r => r.id) then some (maxCycle rows id) else none := by
  rw [lookupMax, rulTable, find?_map_pair]
  by_cases h : id ∈ rows.map fun r => r.id
  · rw [if_pos (mem_uniqueIds.mpr h), if_pos h]
    rfl
  · rw [if_neg (fun hm => h (mem_uniqueIds.mp hm)), if_neg h]
    rfl

lemma lookupMax_of_mem {rows : List CycleRecord} {r : CycleRecord} (hr : r ∈ rows) :
    lookupMax (rulTable rows) r.id = some (maxCycle rows r.id) := by
  rw [lookupMax_rulTable, if_pos (List.mem_map.mpr ⟨r, hr, rfl⟩)]

lemma cycle_le_maxCycle {rows : List CycleRecord} {r : CycleRecord} (hr : r ∈ rows) :
    r.cycle ≤ maxCycle rows r.id := by
  apply le_listMax
  exact List.mem_map.mpr ⟨r, List.mem_filter.mpr ⟨hr, by simp⟩, rfl⟩

lemma maxCycle_perm {rows1 rows2 : List CycleRecord} (hp : rows1.Perm rows2) (id : Int) :
    maxCycle rows1 id = maxCycle rows2 id :=
  listMax_perm ((hp.filter _).map _)

lemma labelTrain_length (rows : List CycleRecord) :
    (labelTrain rows).length = rows.length := by simp [labelTrain]

lemma labelTest_length (ruls : List Int) (rows : List CycleRecord) :
    (labelTest ruls rows).length = rows.length := by simp [labelTest]

lemma labelTrain_getD (rows : List CycleRecord) (i : Nat) (h : i < rows.length) :
    (labelTrain rows).getD i default = trainLabelRow rows (rows.getD i default) := by
  rw [labelTrain]; exact getD_map _ _ _ h

lemma labelTest_getD (ruls : List Int) (rows : List CycleRecord) (i : Nat)
    (h : i < rows.length) :
    (labelTest ruls rows).getD i default = testLabelRow ruls rows (rows.getD i default) := by
  rw [labelTest]; exact getD_map _ _ _ h

lemma normalizeTrain_getD (rows : List CycleRecord) (i : Nat) (h : i < rows.length) :
    (normalizeTrain rows).getD i default
      = { rows.getD i default with
          channels := fun j =>
            normValue (chanMin rows j) (chanMax rows j) ((rows.getD i default).channels j) } := by
  rw [normalizeTrain]; exact getD_map _ _ _ h

lemma normalizeTest_getD (rows : List LabeledRecord) (i : Nat) (h : i < rows.length) :
    (normalizeTest rows).getD i default
      = { rows.getD i default with
          channels := fun j =>
            normValue (chanMinL rows j) (chanMaxL rows j)
              ((rows.getD i default).channels j) } := by
  rw [normalizeTest]; exact getD_map _ _ _ h

/-! ### Claim theorems -/

/-- C1: Train-variant RUL labeling: for every collection and every row, the
row's run id is grouped, `max_cycle` is the maximum cycle over that run's
records, and the row receives the label `RUL = max_cycle - cycle`. -/
theorem C1_train_rul_label (rows : List CycleRecord) (i : Nat) (h : i < rows.length) :
    ((labelTrain rows).getD i default).rul
      = some (maxCycle rows ((rows.getD i default).id) - (rows.getD i default).cycle) := by
  rw [labelTrain_getD rows i h]
  simp only [trainLabelRow]
  rw [lookupMax_of_mem (getD_mem h)]
  rfl

/-- Witness for C1: run 1 with cycles 1 and 3; the first row gets RUL = 2. -/
theorem C1_witness :
    ((labelTrain [⟨1, 1, fun _ => 0⟩, ⟨1, 3, fun _ => 0⟩]).getD 0 default).rul = some 2 := by
  rw [C1_train_rul_label [⟨1, 1, fun _ => 0⟩, ⟨1, 3, fun _ => 0⟩] 0 (by decide)]
  decide

/-- C2: Test-variant RUL labeling: when the 1-indexed positional lookup of the
run id in the true-RUL mapping yields `t`, the row receives
`RUL = max_cycle + t - cycle`, with `max_cycle` the maximum cycle over the
run's truncated series. -/
theorem C2_test_rul_label (ruls : List Int) (rows : List CycleRecord) (i : Nat)
    (h : i < rows.length) (t : Int)
    (ht : rulLookup ruls ((rows.getD i default).id) = some t) :
    ((labelTest ruls rows).getD i default).rul
      = some (maxCycle rows ((rows.getD i default).id) + t - (rows.getD i default).cycle) := by
  rw [labelTest_getD ruls rows i h]
  simp only [testLabelRow]
  rw [lookupMax_of_mem (getD_mem h), ht]

/-- Witness for C2: truncated run 1 with max cycle 120 and true RUL 30; the
row at cycle 100 gets RUL = 50. -/
theorem C2_witness :
    ((labelTest [30] [⟨1, 100, fun _ => 0⟩, ⟨1, 120, fun _ => 0⟩]).getD 0 default).rul
      = some 50 := by
  rw [C2_test_rul_label [30] [⟨1, 100, fun _ => 0⟩, ⟨1, 120, fun _ => 0⟩] 0 (by decide) 30
    (by decide)]
  decide

/-- C3: Normalization replaces every channel value `v` by
`(v - channel_min + 1e-6) / (channel_max - channel_min + 1e-6)`, the channel
statistics being taken over all rows of the same collection, in both the
train (cell-4) and the test (cell-6) normalization. -/
theorem C3_normalization_formula :
    (∀ (rows : List CycleRecord) (i : Nat), i < rows.length → ∀ j : Fin 24,
        ((normalizeTrain rows).getD i default).channels j
          = ((rows.getD i default).channels j - chanMin rows j + 1 / 1000000)
            / (chanMax rows j - chanMin rows j + 1 / 1000000)) ∧
    (∀ (rows : List LabeledRecord) (i : Nat), i < rows.length → ∀ j : Fin 24,
        ((normalizeTest rows).getD i default).channels j
          = ((rows.getD i default).channels j - chanMinL rows j + 1 / 1000000)
            / (chanMaxL rows j - chanMinL rows j + 1 / 1000000)) := by
  constructor
  · intro rows i h j
    rw [normalizeTrain_getD rows i h]
    rfl
  · intro rows i h j
    rw [normalizeTest_getD rows i h]
    rfl

/-- Witness for C3: a single row whose channel value 2 is both the channel
minimum and maximum, normalizing to 1 in the train and the test variant. -/
theorem C3_witness :
    ((normalizeTrain [⟨1, 1, fun _ => 2⟩]).getD 0 default).channels 0 = 1 ∧
    ((normalizeTest [⟨1, 1, fun _ => 2, some 0⟩]).getD 0 default).channels 0 = 1 := by
  constructor
  · rw [C3_normalization_formula.1 [⟨1, 1, fun _ => 2⟩] 0 (by decide) 0]
    norm_num [List.getD, chanMin, chanMax, listMin, listMax]
  · rw [C3_normalization_formula.2 [⟨1, 1, fun _ => 2, some 0⟩] 0 (by decide) 0]
    norm_num [List.getD, chanMinL, chanMaxL, listMin, listMax]

lemma normalizeTrain_channels (rows : List CycleRecord) (i : Nat) (h : i < rows.length)
    (j : Fin 24) :
    ((normalizeTrain rows).getD i default).channels j
      = normValue (chanMin rows j) (chanMax rows j) ((rows.getD i default).channels j) := by
  rw [normalizeTrain_getD rows i h]

lemma labelTrain_rul_eq (rows : List CycleRecord) (i : Nat) (h : i < rows.length) :
    ((labelTrain rows).getD i default).rul
      = some (maxCycle rows ((rows.getD i default).id) - (rows.getD i default).cycle) := by
  rw [labelTrain_getD rows i h]
  simp only [trainLabelRow]
  rw [lookupMax_of_mem (getD_mem h)]
  rfl

lemma eps_pos : (0 : ℚ) < eps := by norm_num [eps]

/-- C6: every normalized channel value lies in [0,1], and the row holding the
channel maximum normalizes exactly to 1. -/
theorem C6_normalized_range (rows : List CycleRecord) (i : Nat) (h : i < rows.length)
    (j : Fin 24) :
    (0 ≤ ((normalizeTrain rows).getD i default).channels j ∧
      ((normalizeTrain rows).getD i default).channels j ≤ 1) ∧
    ((rows.getD i default).channels j = chanMax rows j →
      ((normalizeTrain rows).getD i default).channels j = 1) := by
  have hr : rows.getD i default ∈ rows := getD_mem h
  have hmn : chanMin rows j ≤ (rows.getD i default).channels j := chanMin_le_channels hr j
  have hmx : (rows.getD i default).channels j ≤ chanMax rows j := channels_le_chanMax hr j
  have hden : 0 < chanMax rows j - chanMin rows j + eps := by
    have := eps_pos
    have := le_trans hmn hmx
    linarith
  rw [normalizeTrain_channels rows i h j]
  simp only [normValue]
  refine ⟨⟨?_, ?_⟩, ?_⟩
  · have := eps_pos
    exact div_nonneg (by linarith) (le_of_lt hden)
  · exact (div_le_one hden).mpr (by linarith)
  · intro hv
    rw [hv]
    exact div_self (ne_of_gt hden)

/-- Witness for C6: the row carrying the channel maximum 30 (against minimum
10) normalizes exactly to 1. -/
theorem C6_witness :
    ((normalizeTrain [⟨1, 1, fun _ => 10⟩, ⟨1, 2, fun _ => 30⟩]).getD 1 default).channels 0
      = 1 := by
  apply (C6_normalized_range [⟨1, 1, fun _ => 10⟩, ⟨1, 2, fun _ => 30⟩] 1 (by decide) 0).2
  decide

/-- C7: within a train-labeled run, RUL is non-increasing as cycle increases,
and equals 0 exactly at the run's maximum cycle. -/
theorem C7_rul_monotone_zero (rows : List CycleRecord) (i1 i2 : Nat)
    (h1 : i1 < rows.length) (h2 : i2 < rows.length)
    (hid : (rows.getD i1 default).id = (rows.getD i2 default).id)
    (hc : (rows.getD i1 default).cycle ≤ (rows.getD i2 default).cycle) :
    ∃ v1 v2 : Int,
      ((labelTrain rows).getD i1 default).rul = some v1 ∧
      ((labelTrain rows).getD i2 default).rul = some v2 ∧
      v2 ≤ v1 ∧
      (v2 = 0 ↔ (rows.getD i2 default).cycle
        = maxCycle rows ((rows.getD i2 default).id)) := by
  refine ⟨_, _, labelTrain_rul_eq rows i1 h1, labelTrain_rul_eq rows i2 h2, ?_, ?_⟩
  · rw [hid]
    exact sub_le_sub_left hc _
  · rw [sub_eq_zero, eq_comm]

/-- Witness for C7 on a two-cycle run: RUL decreases from the earlier row to
the later one and vanishes exactly at the maximum cycle. -/
theorem C7_witness :
    ∃ v1 v2 : Int,
      ((labelTrain [⟨1, 1, fun _ => 0⟩, ⟨1, 3, fun _ => 0⟩]).getD 0 default).rul = some v1 ∧
      ((labelTrain [⟨1, 1, fun _ => 0⟩, ⟨1, 3, fun _ => 0⟩]).getD 1 default).rul = some v2 ∧
      v2 ≤ v1 ∧
      (v2 = 0 ↔ (([⟨1, 1, fun _ => 0⟩, ⟨1, 3, fun _ => 0⟩] :
          List CycleRecord).getD 1 default).cycle
        = maxCycle [⟨1, 1, fun _ => 0⟩, ⟨1, 3, fun _ => 0⟩]
            ((([⟨1, 1, fun _ => 0⟩, ⟨1, 3, fun _ => 0⟩] :
              List CycleRecord).getD 1 default).id)) :=
  C7_rul_monotone_zero [⟨1, 1, fun _ => 0⟩, ⟨1, 3, fun _ => 0⟩] 0 1
    (by decide) (by decide) (by decide) (by decide)

/-- C8: degenerate channel: when the channel maximum equals the channel
minimum, every row of that channel normalizes to exactly eps/eps = 1; the
expression is well defined, not a division by zero. -/
theorem C8_degenerate_channel (rows : List CycleRecord) (j : Fin 24)
    (hdeg : chanMax rows j = chanMin rows j) (i : Nat) (h : i < rows.length) :
    ((normalizeTrain rows).getD i default).channels j = eps / eps ∧
    ((normalizeTrain rows).getD i default).channels j = 1 := by
  have hr : rows.getD i default ∈ rows := getD_mem h
  have hmn : chanMin rows j ≤ (rows.getD i default).channels j := chanMin_le_channels hr j
  have hmx : (rows.getD i default).channels j ≤ chanMax rows j := channels_le_chanMax hr j
  have hv : (rows.getD i default).channels j = chanMin rows j :=
    le_antisymm (hdeg ▸ hmx) hmn
  rw [normalizeTrain_channels rows i h j]
  simp only [normValue]
  rw [hv, hdeg, sub_self, zero_add]
  exact ⟨rfl, div_self (ne_of_gt eps_pos)⟩

/-- Witness for C8: a channel whose two values both equal 5 normalizes to 1
on its first row. -/
theorem C8_witness :
    ((normalizeTrain [⟨1, 1, fun _ => 5⟩, ⟨2, 1, fun _ => 5⟩]).getD 0 default).channels 0
      = 1 :=
  (C8_degenerate_channel [⟨1, 1, fun _ => 5⟩, ⟨2, 1, fun _ => 5⟩] 0 (by decide) 0
    (by decide)).2

/-- C9: normalization is a frame transformation: the train normalization
leaves `id` and `cycle` of every row unchanged, and the test normalization,
which runs after labeling, also leaves the computed `RUL` unchanged. -/
theorem C9_normalization_frame :
    (∀ rows : List CycleRecord,
        (normalizeTrain rows).map (fun r => (r.id, r.cycle))
          = rows.map fun r => (r.id, r.cycle)) ∧
    (∀ rows : List LabeledRecord,
        (normalizeTest rows).map (fun r => (r.id, r.cycle, r.rul))
          = rows.map fun r => (r.id, r.cycle, r.rul)) := by
  constructor
  · intro rows
    rw [normalizeTrain, List.map_map]
    rfl
  · intro rows
    rw [normalizeTest, List.map_map]
    rfl

lemma lookupMax_rulTable_perm {rows1 rows2 : List CycleRecord} (hp : rows1.Perm rows2)
    (id : Int) : lookupMax (rulTable rows1) id = lookupMax (rulTable rows2) id := by
  rw [lookupMax_rulTable, lookupMax_rulTable, maxCycle_perm hp id]
  by_cases h : id ∈ rows1.map fun r => r.id
  · rw [if_pos h, if_pos (((hp.map _).mem_iff).mp h)]
  · rw [if_neg h, if_neg fun h2 => h (((hp.map _).mem_iff).mpr h2)]

lemma trainLabelRow_perm {rows1 rows2 : List CycleRecord} (hp : rows1.Perm rows2)
    (r : CycleRecord) : trainLabelRow rows1 r = trainLabelRow rows2 r := by
  simp only [trainLabelRow, lookupMax_rulTable_perm hp]

/-- C10: train labeling is order-independent: permuting the input rows
permutes the labeled output accordingly, and every row receives the same
label under both orders (the grouping is by run id, not positional). -/
theorem C10_order_independence (rows1 rows2 : List CycleRecord) (hp : rows1.Perm rows2) :
    (labelTrain rows1).Perm (labelTrain rows2) ∧
    ∀ r : CycleRecord, trainLabelRow rows1 r = trainLabelRow rows2 r := by
  constructor
  · rw [labelTrain, labelTrain, List.map_congr_left fun r _ => trainLabelRow_perm hp r]
    exact hp.map _
  · exact trainLabelRow_perm hp

/-- Witness for C10: two rows of distinct runs in the two possible orders. -/
theorem C10_witness :
    (labelTrain [⟨1, 1, fun _ => 0⟩, ⟨2, 4, fun _ => 0⟩]).Perm
        (labelTrain [⟨2, 4, fun _ => 0⟩, ⟨1, 1, fun _ => 0⟩]) ∧
    ∀ r : CycleRecord,
      trainLabelRow [⟨1, 1, fun _ => 0⟩, ⟨2, 4, fun _ => 0⟩] r
        = trainLabelRow [⟨2, 4, fun _ => 0⟩, ⟨1, 1, fun _ => 0⟩] r :=
  C10_order_independence [⟨1, 1, fun _ => 0⟩, ⟨2, 4, fun _ => 0⟩]
    [⟨2, 4, fun _ => 0⟩, ⟨1, 1, fun _ => 0⟩]
    (List.Perm.swap (⟨2, 4, fun _ => 0⟩ : CycleRecord) (⟨1, 1, fun _ => 0⟩ : CycleRecord) [])

/-- C4 counterexample: a truncated series containing run id 1 together with an
empty true-RUL mapping: the test labeling raises nothing and still produces
the variant's output — one row, whose RUL is the missing value NaN (`none`) —
contrary to the claim that the labeling fails and produces no output. -/
theorem C4_counterexample :
    (labelTest [] [⟨1, 5, fun _ => 0⟩]).length = 1 ∧
    (labelTest [] [⟨1, 5, fun _ => 0⟩]).map (fun r => r.rul) = [none] := by
  exact ⟨rfl, by decide⟩

/-- C4 amended: a run id with no entry in the true-RUL mapping does not make
the test labeling fail: the output keeps one row per input row, and every row
of such a run receives a missing (NaN) RUL value from the left merge. -/
theorem C4_missing_rul_yields_none (ruls : List Int) (rows : List CycleRecord) :
    (labelTest ruls rows).length = rows.length ∧
    ∀ i : Nat, i < rows.length →
      rulLookup ruls ((rows.getD i default).id) = none →
      ((labelTest ruls rows).getD i default).rul = none := by
  refine ⟨labelTest_length ruls rows, ?_⟩
  intro i h hnone
  rw [labelTest_getD ruls rows i h]
  simp only [testLabelRow, hnone]
  cases lookupMax (rulTable rows) ((rows.getD i default).id) <;> rfl

/-- Witness for the amended C4: run id 2 against a one-entry mapping. -/
theorem C4_witness :
    (labelTest [7] [⟨2, 3, fun _ => 0⟩]).length = 1 ∧
    ((labelTest [7] [⟨2, 3, fun _ => 0⟩]).getD 0 default).rul = none := by
  have h := C4_missing_rul_yields_none [7] [⟨2, 3, fun _ => 0⟩]
  exact ⟨h.1, h.2 0 (by decide) (by decide)⟩

/-- Concrete per-variant parse results: FD001, FD003 and FD004 parse, FD002
raises while being read. -/
def fd002FailInputs : List (Except String (List CycleRecord)) :=
  [Except.ok [], Except.error "MalformedRecordError: train_FD002.txt",
    Except.ok [⟨1, 1, fun _ => 0⟩], Except.ok []]

/-- C5 counterexample: one failing variant among four makes the whole loop
abort with that variant's error: no processed output is produced for any of
the three healthy variants, contrary to the claimed per-variant isolation. -/
theorem C5_counterexample :
    variantLoop trainProcess fd002FailInputs
      = Except.error "MalformedRecordError: train_FD002.txt" ∧
    ∀ outs : List (List LabeledRecord),
      variantLoop trainProcess fd002FailInputs ≠ Except.ok outs := by
  have he : variantLoop trainProcess fd002FailInputs
      = Except.error "MalformedRecordError: train_FD002.txt" := rfl
  refine ⟨he, fun outs h => ?_⟩
  rw [he] at h
  exact Except.noConfusion h

/-- C5 amended: the variant loop has no per-variant isolation: when every
variant before some position parses and the variant at that position fails,
the loop propagates that variant's error, processes no later variant, and
returns no output for any variant. -/
theorem C5_first_error_aborts (process : List CycleRecord → List LabeledRecord)
    (pre post : List (Except String (List CycleRecord))) (e : String)
    (hpre : ∀ x ∈ pre, ∃ rows, x = Except.ok rows) :
    variantLoop process (pre ++ Except.error e :: post) = Except.error e := by
  induction pre with
  | nil => rfl
  | cons x xs ih =>
    obtain ⟨rows, hx⟩ := hpre x (List.mem_cons_self x xs)
    subst hx
    rw [List.cons_append]
    simp only [variantLoop]
    rw [ih fun y hy => hpre y (List.mem_cons_of_mem _ hy)]
    rfl

/-- Witness for the amended C5: a healthy first variant followed by a failing
second one. -/
theorem C5_witness :
    variantLoop trainProcess [Except.ok [], Except.error "boom"] = Except.error "boom" := by
  have h : ∀ x ∈ ([Except.ok []] : List (Except String (List CycleRecord))),
      ∃ rows, x = Except.ok rows := by
    intro x hx
    rw [List.mem_singleton] at hx
    exact ⟨[], hx⟩
  exact C5_first_error_aborts trainProcess [Except.ok []] [] "boom" h
